import Mathlib

/-!
Verification of the automation core of the Reddit news bot.

This file gives a shallow embedding, in Lean 4, of the pure computational
core of the application: the relevance-scoring engine, the keyword parser,
the semantic duplicate detector, the adaptive-bias store, the fetch-cycle
queue merge, and the posting cycle, translated from `src/utils.ts` and the
application component (`App`).

Browser primitives are abstracted as function parameters:
  * `normalize : String → String` models `normalizeUrl` (URL canonicalization
    via the `URL` class);
  * `getDomain : String → String` models `getDomainFromUrl` (hostname
    extraction, `""` on invalid URLs);
  * `dateMs : String → Option Int` models `new Date(s).getTime()`, where
    `none` stands for `NaN` (an unparsable date);
  * `now : Int` models `Date.now()`.
All arithmetic is exact (JS numbers are modelled by `Int`/`ℚ`); timestamp
sorting uses the parsed value with `NaN` read as `0` (the ECMAScript sort is
unspecified for comparators that return `NaN`).
-/

/-- The `FetchedArticle` record from `types.ts`. -/
structure FetchedArticle where
  id : String
  title : String
  link : String
  sourceName : String
  pubDate : String
  description : String
deriving DecidableEq, Repr

/-- The `PostedItem` record from `types.ts` (`postedAt` is an epoch-ms number). -/
structure PostedItem where
  id : String
  title : String
  url : String
  postedUrl : String
  postedAt : Int
deriving DecidableEq, Repr

/-- The `ScoreDetails` record from `types.ts`. -/
structure ScoreDetails where
  base : Int
  titleBoost : Int
  recency : Int
  sourceAuthority : Int
  learnedBias : Int
  total : Int
deriving DecidableEq, Repr

/-- The `AutomationSettings` record from `types.ts`. -/
structure AutomationSettings where
  targetSubreddit : String
  checkInterval : Nat
  postLimit : Nat
  defaultFlairId : String
  rssFeedUrls : String
  includeKeywords : String
  excludeKeywords : String
  sourceAuthorityScores : String
  minimumScore : Int
  useProactiveDuplicateCheck : Bool
  useAdaptiveLearning : Bool
deriving DecidableEq, Repr

/-- The `MAX_PENDING_ARTICLES` constant from the application component. -/
def MAX_PENDING_ARTICLES : Nat := 50

/-- Apostrophe character, kept out of string literals. -/
def apoc : Char := Char.ofNat 39

/-- Builds a contraction such as the stop word between "aren" and "t". -/
def apw (a b : String) : String := a ++ String.mk [apoc] ++ b

/-- The `STOP_WORDS` set from `utils.ts`, as a list of its elements. -/
def STOP_WORDS : List String := [
  "a", "about", "above", "after", "again", "against", "all", "am", "an", "and",
  "any", "are", apw "aren" "t", "as", "at",
  "be", "because", "been", "before", "being", "below", "between", "both", "but", "by",
  "can", apw "can" "t", "cannot", "com", "could", apw "couldn" "t", "did",
  apw "didn" "t", "do", "does", apw "doesn" "t", "doing", apw "don" "t", "down", "during",
  "each", "few", "for", "from", "further", "had", apw "hadn" "t", "has", apw "hasn" "t",
  "have", apw "haven" "t", "having", "he", apw "he" "d", apw "he" "ll", apw "he" "s",
  "her", "here", apw "here" "s", "hers", "herself", "him", "himself", "his", "how", apw "how" "s",
  "i", apw "i" "d", apw "i" "ll", apw "i" "m", apw "i" "ve", "if", "in", "into",
  "is", apw "isn" "t", "it", apw "it" "s", "its", "itself",
  "just", "k", apw "let" "s", "like", "me", "more", "most", apw "mustn" "t", "my", "myself",
  "no", "nor", "not", "now", "of", "off", "on", "once", "only", "or", "other",
  "our", "ours", "ourselves", "out", "over", "own",
  "r", "same", apw "shan" "t", "she", apw "she" "d", apw "she" "ll", apw "she" "s",
  "should", apw "shouldn" "t", "so", "some", "such",
  "than", "that", apw "that" "s", "the", "their", "theirs", "them", "themselves",
  "then", "there", apw "there" "s", "these", "they", apw "they" "d", apw "they" "ll",
  apw "they" "re", apw "they" "ve", "this", "those", "through", "to", "too",
  "under", "until", "up", "very", "was", apw "wasn" "t", "we", apw "we" "d",
  apw "we" "ll", apw "we" "re", apw "we" "ve", "were", apw "weren" "t", "what",
  apw "what" "s", "when", apw "when" "s", "where", apw "where" "s", "which", "while",
  "who", apw "who" "s", "whom", "why", apw "why" "s", "will", "with", apw "won" "t",
  "would", apw "wouldn" "t",
  "you", apw "you" "d", apw "you" "ll", apw "you" "re", apw "you" "ve",
  "your", "yours", "yourself", "yourselves"]

/-- A character matched by the JS regex class `\w` (`[A-Za-z0-9_]`). -/
def isWordChar (c : Char) : Bool := c.isAlphanum || c == '_'

/-- The `String.prototype.toLowerCase` (character-wise; the strings handled by
this program are ASCII). -/
def jsToLower (s : String) : String := String.mk (s.data.map Char.toLower)

/-- The `String.prototype.trim`: strip leading and trailing whitespace. -/
def jsTrim (s : String) : String :=
  String.mk (((s.data.dropWhile Char.isWhitespace).reverse.dropWhile
    Char.isWhitespace).reverse)

/-- Helper for `jsSplitOn`: split a character list at every occurrence of
`sep`; the result always has one more group than there are separators. -/
def splitOnChar (sep : Char) : List Char → List (List Char)
  | [] => [[]]
  | c :: rest =>
    match splitOnChar sep rest with
    | [] => [[]]
    | g :: gs => if c == sep then [] :: g :: gs else (c :: g) :: gs

/-- The `String.prototype.split` with a one-character separator string. -/
def jsSplitOn (s : String) (sep : Char) : List String :=
  (splitOnChar sep s.data).map String.mk

/-- The `String.prototype.includes`: `sub` occurs as a contiguous substring of `s`. -/
def jsIncludes (s sub : String) : Bool := go s.data sub.data
where
  /-- Checks `sub` against every suffix of `s`. -/
  go : List Char → List Char → Bool
  | [], sub => sub.isEmpty
  | c :: t, sub => sub.isPrefixOf (c :: t) || go t sub

/-- Helper for `splitWsWords`: `acc` holds the (reversed) characters of the
word currently being read. -/
def splitWsWordsAux : List Char → List Char → List String
  | [], acc => if acc.isEmpty then [] else [String.mk acc.reverse]
  | c :: rest, acc =>
    if c.isWhitespace then
      if acc.isEmpty then splitWsWordsAux rest []
      else String.mk acc.reverse :: splitWsWordsAux rest []
    else splitWsWordsAux rest (c :: acc)

/-- Splits a character list into its maximal whitespace-free runs, modelling
`split(/\s+/)` (whose boundary empty-string artifacts are dropped here; they
are removed by the length filter in `normalizeAndGetWords` anyway). -/
def splitWsWords (cs : List Char) : List String :=
  splitWsWordsAux cs []

/-- Helper for `dedupBy`: `seen` holds the keys of the elements already kept. -/
def dedupByAux {α β : Type} [BEq β] (key : α → β) (seen : List β) :
    List α → List α
  | [] => []
  | a :: l =>
    if seen.contains (key a) then dedupByAux key seen l
    else a :: dedupByAux key (key a :: seen) l

/-- First-occurrence deduplication keyed by `key`, the semantics of both
`new Set(...)` insertion and the `filter`/`findIndex` idiom in the fetch
cycle: an element is kept iff no earlier element has the same key. -/
def dedupBy {α β : Type} [BEq β] (key : α → β) (l : List α) : List α :=
  dedupByAux key [] l

/-- The `normalizeAndGetWords` from `utils.ts`: lowercase, strip punctuation
(`replace(/[^\w\s]/g, '')`), split on whitespace, drop one-character words and
stop words, collect into a set (first-occurrence order). -/
def normalizeAndGetWords (text : String) : List String :=
  dedupBy id
    ((splitWsWords ((jsToLower text).data.filter
        (fun c => isWordChar c || c.isWhitespace))).filter
      (fun word => decide (1 < word.length) && !(STOP_WORDS.contains word)))

/-- The `extractSignificantKeywords` from `utils.ts` (`Array.from` of the word set). -/
def extractSignificantKeywords (text : String) : List String :=
  normalizeAndGetWords text

/-- The `calculateJaccardSimilarity` from `utils.ts` on word sets:
`unionSize === 0 ? 0 : intersectionSize / unionSize`. -/
def calculateJaccardSimilarity (set1 set2 : Finset String) : ℚ :=
  if (set1 ∪ set2).card = 0 then 0
  else ((set1 ∩ set2).card : ℚ) / ((set1 ∪ set2).card : ℚ)

/-- The `findLocalSemanticDuplicates` from `utils.ts`: the id of each new article
whose title word set reaches the similarity threshold against some history
title (the source's default threshold is `0.5`; callers pass it explicitly
here). -/
def findLocalSemanticDuplicates (newArticles : List FetchedArticle)
    (historyTitles : List String) (similarityThreshold : ℚ) : List String :=
  if newArticles.isEmpty || historyTitles.isEmpty then []
  else
    let historyTitleWordSets := historyTitles.map normalizeAndGetWords
    newArticles.filterMap (fun article =>
      let articleWordSet := normalizeAndGetWords article.title
      if historyTitleWordSets.any (fun historySet =>
          similarityThreshold ≤
            calculateJaccardSimilarity articleWordSet.toFinset historySet.toFinset)
      then some article.id else none)

/-- The value of the longest digit prefix of `cs`; `none` when there is none. -/
def digitsPrefixVal (cs : List Char) : Option Nat :=
  let ds := cs.takeWhile Char.isDigit
  if ds.isEmpty then none
  else some (ds.foldl (fun acc c => acc * 10 + (c.toNat - '0'.toNat)) 0)

/-- JS `parseInt(s, 10)`: skip leading whitespace, read an optional sign and
then the longest digit prefix; `none` models `NaN`. -/
def jsParseInt (s : String) : Option Int :=
  match s.data.dropWhile Char.isWhitespace with
  | '-' :: rest => (digitsPrefixVal rest).map (fun n => -(n : Int))
  | '+' :: rest => (digitsPrefixVal rest).map (fun n => (n : Int))
  | cs => (digitsPrefixVal cs).map (fun n => (n : Int))

/-- A JS `Map<string, number>`: an insertion-ordered association list with
unique keys (unique whenever it is built with `jsMapSet` from `[]`). -/
abbrev JsMap : Type := List (String × Int)

/-- The `Map.prototype.set`: update the entry in place if the key is present,
append a new entry otherwise. -/
def jsMapSet : JsMap → String → Int → JsMap
  | [], k, v => [(k, v)]
  | p :: rest, k, v => if p.1 == k then (k, v) :: rest else p :: jsMapSet rest k v

/-- The `Map.prototype.get` (as an `Option`). -/
def jsMapGet (m : JsMap) (k : String) : Option Int :=
  (m.find? (fun p => p.1 == k)).map (fun p => p.2)

/-- The `Map.prototype.has`. -/
def jsMapHas (m : JsMap) (k : String) : Bool :=
  m.any (fun p => p.1 == k)

/-- The body of the `forEach` in `parseKeywordsWithScores`, processing one
(already trimmed, lowercased) line into the keyword map. -/
def parseKeywordLine (defaultScore : Int) (keywordMap : JsMap) (line : String) : JsMap :=
  match jsSplitOn line ':' with
  | [p0, p1] =>
    let keyword := jsTrim p0
    match jsParseInt (jsTrim p1) with
    | some score => if keyword ≠ "" then jsMapSet keywordMap keyword score else keywordMap
    | none => keywordMap
  | _ => if line ≠ "" then jsMapSet keywordMap line defaultScore else keywordMap

/-- The `parseKeywordsWithScores` from `utils.ts`: split the configuration string
into lines, drop empty lines, trim + lowercase, then fold each line into the
map via `parseKeywordLine`. -/
def parseKeywordsWithScores (keywordsString : String) (defaultScore : Int) : JsMap :=
  (((jsSplitOn keywordsString '\n').filter (fun l => l ≠ "")).map
      (fun line => jsToLower (jsTrim line))).foldl
    (parseKeywordLine defaultScore) []

/-- The keyword loop of `calculateArticleScore`, returning the accumulated
`(baseScore, titleBoost)` pair over the map's entries: a matched keyword adds
its value to the base, and a positive keyword matched in the title adds
`Math.ceil(value * 0.5)` (written `(value + 1) / 2`, equal to it for positive
values) to the title boost. -/
def keywordFold (titleLower descriptionLower : String) : JsMap → Int × Int
  | [] => (0, 0)
  | (keyword, value) :: rest =>
    let p := keywordFold titleLower descriptionLower rest
    let inTitle := jsIncludes titleLower keyword
    let inDescription := jsIncludes descriptionLower keyword
    if inTitle || inDescription then
      (value + p.1,
        (if inTitle && decide (0 < value) then (value + 1) / 2 else 0) + p.2)
    else p

/-- The recency block of `calculateArticleScore`: tiers by hours since
publication (`≤ 2 → 5`, `≤ 6 → 3`, `≤ 12 → 1`), with an unparsable date
(`NaN`) falling through every comparison to `0`. Hour thresholds are stated
in exact milliseconds. -/
def recencyOf (dateMs : String → Option Int) (now : Int) (pubDate : String) : Int :=
  match dateMs pubDate with
  | none => 0
  | some t =>
    if now - t ≤ 2 * 3600000 then 5
    else if now - t ≤ 6 * 3600000 then 3
    else if now - t ≤ 12 * 3600000 then 1
    else 0

/-- The source-authority block of `calculateArticleScore`. -/
def sourceAuthorityOf (getDomain : String → String) (link : String) :
    Option JsMap → Int
  | none => 0
  | some m =>
    let domain := getDomain link
    if domain ≠ "" ∧ jsMapHas m domain then (jsMapGet m domain).getD 0 else 0

/-- The learned-bias block of `calculateArticleScore`: sum of the bias map's
entries over the significant words of the title. -/
def learnedBiasOf (title : String) : Option JsMap → Int
  | none => 0
  | some m =>
    (normalizeAndGetWords title).foldl
      (fun acc word => if jsMapHas m word then acc + (jsMapGet m word).getD 0 else acc) 0

/-- The `calculateArticleScore` from `utils.ts`. -/
def calculateArticleScore (dateMs : String → Option Int)
    (getDomain : String → String) (now : Int) (article : FetchedArticle)
    (scoredKeywords : JsMap) (sourceAuthorityMap : Option JsMap)
    (learnedBiasMap : Option JsMap) : ScoreDetails :=
  let titleLower := jsToLower article.title
  let descriptionLower := jsToLower article.description
  let kw := keywordFold titleLower descriptionLower scoredKeywords
  let recency := recencyOf dateMs now article.pubDate
  let sourceAuthority := sourceAuthorityOf getDomain article.link sourceAuthorityMap
  let learnedBias := learnedBiasOf article.title learnedBiasMap
  { base := kw.1, titleBoost := kw.2, recency := recency,
    sourceAuthority := sourceAuthority, learnedBias := learnedBias,
    total := kw.1 + kw.2 + recency + sourceAuthority + learnedBias }

/-- The combined keyword map built in `scoreAndFilterArticles`: every
inclusion keyword is inserted with `Math.abs(score)`, then every exclusion
keyword with `-Math.abs(score)`. -/
def combinedScoredKeywordsOf (includeKeywords excludeKeywords : String) : JsMap :=
  let inclusionMap := parseKeywordsWithScores includeKeywords 1
  let exclusionMap := parseKeywordsWithScores excludeKeywords 1
  exclusionMap.foldl (fun acc p => jsMapSet acc p.1 (-|p.2|))
    (inclusionMap.foldl (fun acc p => jsMapSet acc p.1 |p.2|) [])

/-- The parsed timestamp used by the sort comparators,
`new Date(s).getTime()` with `NaN` read as `0`. -/
def jsTime (dateMs : String → Option Int) (s : String) : Int :=
  (dateMs s).getD 0

/-- The sort order of `scoreAndFilterArticles` (its comparator
`b.total - a.total`, falling back to `dateB - dateA` on ties, read as a
binary relation): score descending, ties broken by publication date
descending. -/
def scoreDateOrder (dateMs : String → Option Int)
    (p q : FetchedArticle × ScoreDetails) : Prop :=
  q.2.total < p.2.total ∨
    (p.2.total = q.2.total ∧ jsTime dateMs q.1.pubDate ≤ jsTime dateMs p.1.pubDate)

instance (dateMs : String → Option Int) : DecidableRel (scoreDateOrder dateMs) :=
  fun _ _ => by unfold scoreDateOrder; infer_instance

/-- The `scoreAndFilterArticles` from the application component: score every
article, keep those reaching the minimum score, and sort by score descending
breaking ties by publication date descending (ECMAScript `sort` is a stable
sort, modelled by a stable insertion sort). -/
def scoreAndFilterArticles (dateMs : String → Option Int)
    (getDomain : String → String) (now : Int) (learnedBiases : JsMap)
    (articles : List FetchedArticle) (settings : AutomationSettings) :
    List FetchedArticle :=
  let sourceAuthorityMap := parseKeywordsWithScores settings.sourceAuthorityScores 0
  let combinedScoredKeywords :=
    combinedScoredKeywordsOf settings.includeKeywords settings.excludeKeywords
  let scoredArticles := articles.map (fun article =>
    let effectiveBiases :=
      if settings.useAdaptiveLearning then some learnedBiases else none
    (article, calculateArticleScore dateMs getDomain now article
      combinedScoredKeywords (some sourceAuthorityMap) effectiveBiases))
  let filteredArticles := scoredArticles.filter
    (fun p => settings.minimumScore ≤ p.2.total)
  (filteredArticles.insertionSort (scoreDateOrder dateMs)).map (fun p => p.1)

/-- The `urlsToExclude` set of `runFetchCycle` (normalized history links,
normalized queue links, and the stored removed-link set), followed by the
filter producing `uniqueNewArticles`. -/
def uniqueNewOf (normalize : String → String) (pendingArticles : List FetchedArticle)
    (postingHistory : List PostedItem) (removedArticleUrls : List String)
    (newArticles : List FetchedArticle) : List FetchedArticle :=
  let urlsToExclude := postingHistory.map (fun item => normalize item.url) ++
    pendingArticles.map (fun item => normalize item.link) ++ removedArticleUrls
  newArticles.filter (fun article => !(urlsToExclude.contains (normalize article.link)))

/-- The sort order of the fetch-cycle merge (its comparator
`dateB - dateA`, read as a binary relation): publication timestamp
descending. -/
def pubDateOrder (dateMs : String → Option Int) (a b : FetchedArticle) : Prop :=
  jsTime dateMs b.pubDate ≤ jsTime dateMs a.pubDate

instance (dateMs : String → Option Int) : DecidableRel (pubDateOrder dateMs) :=
  fun _ _ => by unfold pubDateOrder; infer_instance

/-- The merge step of `runFetchCycle`: concatenate the current queue with the
surviving new articles, deduplicate by normalized link keeping the first
occurrence (`filter`/`findIndex`), sort by publication timestamp descending
(a stable sort, modelled by a stable insertion sort), and truncate to
`MAX_PENDING_ARTICLES`. -/
def mergeIntoQueue (normalize : String → String) (dateMs : String → Option Int)
    (pendingArticles uniqueNewArticles : List FetchedArticle) : List FetchedArticle :=
  let combined := pendingArticles ++ uniqueNewArticles
  let uniqueArticles := dedupBy (fun a => normalize a.link) combined
  (uniqueArticles.insertionSort (pubDateOrder dateMs)).take MAX_PENDING_ARTICLES

/-- The queue transition of `runFetchCycle`: with no fetched articles, or none
surviving the exclusion filter, the queue is left unchanged (early return);
otherwise the merge result is saved. -/
def runFetchCycle (normalize : String → String) (dateMs : String → Option Int)
    (pendingArticles : List FetchedArticle) (postingHistory : List PostedItem)
    (removedArticleUrls : List String) (newArticles : List FetchedArticle) :
    List FetchedArticle :=
  if newArticles.isEmpty then pendingArticles
  else
    let uniqueNewArticles :=
      uniqueNewOf normalize pendingArticles postingHistory removedArticleUrls newArticles
    if uniqueNewArticles.isEmpty then pendingArticles
    else mergeIntoQueue normalize dateMs pendingArticles uniqueNewArticles

/-- The queue-and-history state read and written by the posting cycle. -/
structure CycleState where
  pendingArticles : List FetchedArticle
  postingHistory : List PostedItem
deriving DecidableEq, Repr

/-- Outcome of one `redditService.submitPost` call: the created post's URL, or
a thrown error's message. -/
inductive SubmitOutcome where
  | success (url : String)
  | failure (msg : String)
deriving DecidableEq, Repr

/-- The duplicate-check step of `runPostingCycle`: when enabled and some
queued articles are flagged against the last 50 history titles, they are
filtered out of the in-flight working set `articlesToProcess`. -/
def articlesToProcessOf (normalize : String → String) (settings : AutomationSettings)
    (st : CycleState) : List FetchedArticle :=
  if settings.useProactiveDuplicateCheck then
    let historyTitles := (st.postingHistory.take 50).map (fun item => item.title)
    let duplicateArticleIds :=
      findLocalSemanticDuplicates st.pendingArticles historyTitles (1/2)
    if duplicateArticleIds.length > 0 then
      let duplicateUrlSet := duplicateArticleIds.map normalize
      st.pendingArticles.filter
        (fun a => !(duplicateUrlSet.contains (normalize a.link)))
    else st.pendingArticles
  else st.pendingArticles

/-- The batch selected for posting: the scored-and-filtered working set,
truncated to the post limit. -/
def articlesToPostOf (normalize : String → String) (dateMs : String → Option Int)
    (getDomain : String → String) (now : Int) (learnedBiases : JsMap)
    (settings : AutomationSettings) (st : CycleState) : List FetchedArticle :=
  (scoreAndFilterArticles dateMs getDomain now learnedBiases
    (articlesToProcessOf normalize settings st) settings).take settings.postLimit

/-- The posting loop of `runPostingCycle`, returning
`(successfulPosts, articlesPostedThisCycle)`. A successful submission records
a history entry with the created post's URL; a failure whose message contains
(case-insensitively) "already been submitted" records a history entry with
the sentinel `"Duplicate"` location and still counts the article as posted;
any other failure records nothing. -/
def postLoop (submit : FetchedArticle → SubmitOutcome) (now : Int) :
    List FetchedArticle → List PostedItem × List FetchedArticle
  | [] => ([], [])
  | article :: rest =>
    let p := postLoop submit now rest
    match submit article with
    | .success postUrl =>
      (⟨article.link, article.title, article.link, postUrl, now⟩ :: p.1,
        article :: p.2)
    | .failure msg =>
      if jsIncludes (jsToLower msg) "already been submitted" then
        (⟨article.link, article.title, article.link, "Duplicate", now⟩ :: p.1,
          article :: p.2)
      else p

/-- The `runPostingCycle` from the application component, as a transition on the
queue-and-history state. `authOk` models the guard on credentials and target
subreddit; `submit` models the publishing collaborator. With an empty post
batch the working set is saved as the queue; after a batch with at least one
posted (or duplicate-class) article, the posted links are removed from the
working set, which is saved together with the prepended history entries; a
batch in which every submission failed with a non-duplicate error saves
nothing. -/
def runPostingCycle (normalize : String → String) (dateMs : String → Option Int)
    (getDomain : String → String) (now : Int) (authOk : Bool)
    (settings : AutomationSettings) (learnedBiases : JsMap)
    (submit : FetchedArticle → SubmitOutcome) (st : CycleState) : CycleState :=
  if !authOk then st
  else if st.pendingArticles.isEmpty then st
  else
    let articlesToProcess := articlesToProcessOf normalize settings st
    let articlesToPost :=
      articlesToPostOf normalize dateMs getDomain now learnedBiases settings st
    if articlesToPost.isEmpty then
      { st with pendingArticles := articlesToProcess }
    else
      let r := postLoop submit now articlesToPost
      if r.2.isEmpty then st
      else
        let postedLinks := r.2.map (fun a => normalize a.link)
        let newPending := articlesToProcess.filter
          (fun a => !(postedLinks.contains (normalize a.link)))
        { pendingArticles := newPending, postingHistory := r.1 ++ st.postingHistory }

/-- The adaptive-learning update of `handleRemoveArticleFromQueue`: decrement
the bias entry of each significant word of the rejected title by 1, absent
entries starting at 0. -/
def learnBiasesFromRejection (learnedBiases : JsMap) (title : String) : JsMap :=
  (extractSignificantKeywords title).foldl
    (fun newBiases word => jsMapSet newBiases word ((jsMapGet newBiases word).getD 0 - 1))
    learnedBiases

/-- The `handleRemoveArticleFromQueue` from the application component, returning
the new `(pendingArticles, removedArticleUrls, learnedBiases)` triple. The
removed-set insertion models `Set.prototype.add` (append if absent). -/
def handleRemoveArticleFromQueue (normalize : String → String)
    (useAdaptiveLearning : Bool) (pendingArticles : List FetchedArticle)
    (removedArticleUrls : List String) (learnedBiases : JsMap)
    (articleId : String) : List FetchedArticle × List String × JsMap :=
  match pendingArticles.find? (fun a => a.id == articleId) with
  | none => (pendingArticles, removedArticleUrls, learnedBiases)
  | some articleToRemove =>
    let newPending := pendingArticles.filter (fun a => a.id != articleId)
    let u := normalize articleToRemove.link
    let newRemovedUrls :=
      if removedArticleUrls.contains u then removedArticleUrls
      else removedArticleUrls ++ [u]
    let newBiases :=
      if useAdaptiveLearning then learnBiasesFromRejection learnedBiases articleToRemove.title
      else learnedBiases
    (newPending, newRemovedUrls, newBiases)

/-! ### Association-list lemmas for the JS `Map` model -/

theorem jsMapGet_nil (k : String) : jsMapGet [] k = none := rfl

theorem jsMapGet_cons_of_eq (p : String × Int) (rest : JsMap) (k : String)
    (hp : p.1 = k) : jsMapGet (p :: rest) k = some p.2 := by
  simp [jsMapGet, List.find?_cons_of_pos, hp]

theorem jsMapGet_cons_of_ne (p : String × Int) (rest : JsMap) (k : String)
    (hp : p.1 ≠ k) : jsMapGet (p :: rest) k = jsMapGet rest k := by
  simp [jsMapGet, List.find?_cons_of_neg, hp]

theorem jsMapSet_cons_of_eq (p : String × Int) (rest : JsMap) (k : String)
    (v : Int) (hp : p.1 = k) : jsMapSet (p :: rest) k v = (k, v) :: rest := by
  simp [jsMapSet, hp]

theorem jsMapSet_cons_of_ne (p : String × Int) (rest : JsMap) (k : String)
    (v : Int) (hp : p.1 ≠ k) : jsMapSet (p :: rest) k v = p :: jsMapSet rest k v := by
  simp [jsMapSet, hp]

theorem jsMapGet_set_self (m : JsMap) (k : String) (v : Int) :
    jsMapGet (jsMapSet m k v) k = some v := by
  induction m with
  | nil => simp [jsMapSet, jsMapGet, List.find?]
  | cons p rest ih =>
    by_cases h : p.1 = k
    · rw [jsMapSet_cons_of_eq _ _ _ _ h, jsMapGet_cons_of_eq _ _ _ rfl]
    · rw [jsMapSet_cons_of_ne _ _ _ _ h, jsMapGet_cons_of_ne _ _ _ h, ih]

theorem jsMapGet_set_ne (m : JsMap) (k k' : String) (v : Int) (h : k' ≠ k) :
    jsMapGet (jsMapSet m k' v) k = jsMapGet m k := by
  induction m with
  | nil =>
    rw [show jsMapSet [] k' v = [(k', v)] from rfl, jsMapGet_cons_of_ne _ _ _ h]
  | cons p rest ih =>
    by_cases hp : p.1 = k'
    · rw [jsMapSet_cons_of_eq _ _ _ _ hp, jsMapGet_cons_of_ne _ _ _ h,
        jsMapGet_cons_of_ne _ _ _ (hp ▸ h)]
    · rw [jsMapSet_cons_of_ne _ _ _ _ hp]
      by_cases hpk : p.1 = k
      · rw [jsMapGet_cons_of_eq _ _ _ hpk, jsMapGet_cons_of_eq _ _ _ hpk]
      · rw [jsMapGet_cons_of_ne _ _ _ hpk, jsMapGet_cons_of_ne _ _ _ hpk, ih]

theorem keys_jsMapSet_subset (m : JsMap) (k x : String) (v : Int)
    (h : x ∈ (jsMapSet m k v).map Prod.fst) : x = k ∨ x ∈ m.map Prod.fst := by
  induction m with
  | nil => simpa [jsMapSet] using h
  | cons p rest ih =>
    by_cases hp : p.1 = k
    · rw [jsMapSet_cons_of_eq _ _ _ _ hp] at h
      rcases List.mem_cons.1 h with h' | h'
      · exact Or.inl h'
      · exact Or.inr (by simp only [List.map_cons, List.mem_cons]; exact Or.inr h')
    · rw [jsMapSet_cons_of_ne _ _ _ _ hp] at h
      rcases List.mem_cons.1 h with h' | h'
      · exact Or.inr (by simp [h'])
      · rcases ih h' with h'' | h''
        · exact Or.inl h''
        · exact Or.inr (by simp only [List.map_cons, List.mem_cons]; exact Or.inr h'')

theorem keys_nodup_jsMapSet (m : JsMap) (k : String) (v : Int)
    (h : (m.map Prod.fst).Nodup) : ((jsMapSet m k v).map Prod.fst).Nodup := by
  induction m with
  | nil => simp [jsMapSet]
  | cons p rest ih =>
    simp only [List.map_cons, List.nodup_cons] at h
    by_cases hp : p.1 = k
    · rw [jsMapSet_cons_of_eq _ _ _ _ hp]
      exact List.nodup_cons.2 ⟨by simpa [hp] using h.1, h.2⟩
    · rw [jsMapSet_cons_of_ne _ _ _ _ hp, List.map_cons, List.nodup_cons]
      refine ⟨fun hc => ?_, ih h.2⟩
      rcases keys_jsMapSet_subset rest k p.1 v hc with h' | h'
      · exact hp h'
      · exact h.1 h'

/-- After folding a list of entries into a map (inserting `f p` at key
`p.1`), a key absent from the entries keeps its original binding. -/
theorem jsMapGet_foldl_set_of_not_mem (f : String × Int → Int) (k : String) :
    ∀ (entries : List (String × Int)) (m : JsMap),
      k ∉ entries.map Prod.fst →
      jsMapGet (entries.foldl (fun acc p => jsMapSet acc p.1 (f p)) m) k = jsMapGet m k := by
  intro entries
  induction entries with
  | nil => intro m _; rfl
  | cons q rest ih =>
    intro m hk
    simp only [List.map_cons, List.mem_cons, not_or] at hk
    rw [List.foldl_cons, ih _ hk.2, jsMapGet_set_ne _ _ _ _ (Ne.symm hk.1)]

/-- After folding a list of entries with pairwise-distinct keys into a map,
each entry's key is bound to its inserted value. -/
theorem jsMapGet_foldl_set_of_mem (f : String × Int → Int) (k : String) (v : Int) :
    ∀ (entries : List (String × Int)) (m : JsMap),
      (entries.map Prod.fst).Nodup → (k, v) ∈ entries →
      jsMapGet (entries.foldl (fun acc p => jsMapSet acc p.1 (f p)) m) k = some (f (k, v)) := by
  intro entries
  induction entries with
  | nil => intro m _ h; cases h
  | cons q rest ih =>
    intro m hnd hmem
    simp only [List.map_cons, List.nodup_cons] at hnd
    rcases List.mem_cons.1 hmem with rfl | hmem'
    · rw [List.foldl_cons,
        jsMapGet_foldl_set_of_not_mem f k rest _ (by simpa using hnd.1),
        jsMapGet_set_self]
    · rw [List.foldl_cons]
      exact ih _ hnd.2 hmem'

/-- Folding the bias decrements of a word list: a word absent from the list
keeps its original binding. -/
theorem jsMapGet_biasFold_of_not_mem (x : String) :
    ∀ (words : List String) (m : JsMap), x ∉ words →
      jsMapGet (words.foldl
        (fun acc w => jsMapSet acc w ((jsMapGet acc w).getD 0 - 1)) m) x = jsMapGet m x := by
  intro words
  induction words with
  | nil => intro m _; rfl
  | cons w rest ih =>
    intro m hx
    simp only [List.mem_cons, not_or] at hx
    rw [List.foldl_cons, ih _ hx.2, jsMapGet_set_ne _ _ _ _ (Ne.symm hx.1)]

/-- Folding the bias decrements of a duplicate-free word list: each listed
word ends bound to its original value (defaulting to 0) minus 1. -/
theorem jsMapGet_biasFold_of_mem (x : String) :
    ∀ (words : List String) (m : JsMap), words.Nodup → x ∈ words →
      jsMapGet (words.foldl
        (fun acc w => jsMapSet acc w ((jsMapGet acc w).getD 0 - 1)) m) x =
      some ((jsMapGet m x).getD 0 - 1) := by
  intro words
  induction words with
  | nil => intro m _ h; cases h
  | cons w rest ih =>
    intro m hnd hmem
    simp only [List.nodup_cons] at hnd
    rcases List.mem_cons.1 hmem with rfl | hmem'
    · rw [List.foldl_cons, jsMapGet_biasFold_of_not_mem x rest _ hnd.1,
        jsMapGet_set_self]
    · have hxw : x ≠ w := fun hxw => hnd.1 (hxw ▸ hmem')
      rw [List.foldl_cons, ih _ hnd.2 hmem', jsMapGet_set_ne _ _ _ _ (Ne.symm hxw)]

/-! ### Deduplication lemmas -/

theorem dedupByAux_sublist {α β : Type} [BEq β] (key : α → β) :
    ∀ (l : List α) (seen : List β), (dedupByAux key seen l).Sublist l := by
  intro l
  induction l with
  | nil => intro seen; simp [dedupByAux]
  | cons a l ih =>
    intro seen
    by_cases h : seen.contains (key a) = true
    · simpa [dedupByAux, h] using (ih seen).cons a
    · simpa [dedupByAux, h] using (ih (key a :: seen)).cons₂ a

theorem key_not_seen_of_mem_dedupByAux {α β : Type} [BEq β] [LawfulBEq β]
    (key : α → β) :
    ∀ (l : List α) (seen : List β) (b : α),
      b ∈ dedupByAux key seen l → key b ∉ seen := by
  intro l
  induction l with
  | nil => intro seen b h; cases h
  | cons a l ih =>
    intro seen b h
    by_cases hc : seen.contains (key a) = true
    · rw [dedupByAux, if_pos hc] at h
      exact ih seen b h
    · rw [dedupByAux, if_neg hc] at h
      rcases List.mem_cons.1 h with rfl | h'
      · intro hmem
        exact hc (List.elem_iff.2 hmem)
      · intro hmem
        exact ih (key a :: seen) b h' (List.mem_cons_of_mem _ hmem)

theorem nodup_map_key_dedupByAux {α β : Type} [BEq β] [LawfulBEq β]
    (key : α → β) :
    ∀ (l : List α) (seen : List β), ((dedupByAux key seen l).map key).Nodup := by
  intro l
  induction l with
  | nil => intro seen; simp [dedupByAux]
  | cons a l ih =>
    intro seen
    by_cases hc : seen.contains (key a) = true
    · rw [dedupByAux, if_pos hc]
      exact ih seen
    · rw [dedupByAux, if_neg hc, List.map_cons, List.nodup_cons]
      refine ⟨fun hmem => ?_, ih (key a :: seen)⟩
      rcases List.mem_map.1 hmem with ⟨b, hb, hkb⟩
      exact key_not_seen_of_mem_dedupByAux key l (key a :: seen) b hb
        (by simp [hkb])

theorem nodup_map_key_dedupBy {α β : Type} [BEq β] [LawfulBEq β]
    (key : α → β) (l : List α) : ((dedupBy key l).map key).Nodup :=
  nodup_map_key_dedupByAux key l []

theorem dedupBy_sublist {α β : Type} [BEq β] (key : α → β) (l : List α) :
    (dedupBy key l).Sublist l :=
  dedupByAux_sublist key l []

theorem nodup_extractSignificantKeywords (text : String) :
    (extractSignificantKeywords text).Nodup := by
  have h := nodup_map_key_dedupBy (id : String → String)
    ((splitWsWords ((jsToLower text).data.filter
        (fun c => isWordChar c || c.isWhitespace))).filter
      (fun word => decide (1 < word.length) && !(STOP_WORDS.contains word)))
  simpa [extractSignificantKeywords, normalizeAndGetWords] using h

/-! ### Order-theoretic facts about the two sort relations -/

instance (dateMs : String → Option Int) :
    IsTotal FetchedArticle (pubDateOrder dateMs) :=
  ⟨fun a b => le_total (jsTime dateMs b.pubDate) (jsTime dateMs a.pubDate)⟩

instance (dateMs : String → Option Int) :
    IsTrans FetchedArticle (pubDateOrder dateMs) :=
  ⟨fun _ _ _ hab hbc => le_trans hbc hab⟩

instance (dateMs : String → Option Int) :
    IsTotal (FetchedArticle × ScoreDetails) (scoreDateOrder dateMs) := by
  constructor
  intro p q
  rcases lt_trichotomy p.2.total q.2.total with h | h | h
  · exact Or.inr (Or.inl h)
  · rcases le_total (jsTime dateMs q.1.pubDate) (jsTime dateMs p.1.pubDate) with h' | h'
    · exact Or.inl (Or.inr ⟨h, h'⟩)
    · exact Or.inr (Or.inr ⟨h.symm, h'⟩)
  · exact Or.inl (Or.inl h)

instance (dateMs : String → Option Int) :
    IsTrans (FetchedArticle × ScoreDetails) (scoreDateOrder dateMs) := by
  constructor
  intro p q r hpq hqr
  rcases hpq with h1 | ⟨h1, h1'⟩
  · rcases hqr with h2 | ⟨h2, h2'⟩
    · exact Or.inl (h2.trans h1)
    · exact Or.inl (h2 ▸ h1)
  · rcases hqr with h2 | ⟨h2, h2'⟩
    · exact Or.inl (h1 ▸ h2)
    · exact Or.inr ⟨h1.trans h2, h2'.trans h1'⟩

/-! ### Membership lemmas for the cycle pipeline -/

theorem mem_scoreAndFilterArticles {dateMs : String → Option Int}
    {getDomain : String → String} {now : Int} {learnedBiases : JsMap}
    {articles : List FetchedArticle} {settings : AutomationSettings}
    {x : FetchedArticle}
    (h : x ∈ scoreAndFilterArticles dateMs getDomain now learnedBiases articles settings) :
    x ∈ articles := by
  unfold scoreAndFilterArticles at h
  rcases List.mem_map.1 h with ⟨p, hp, rfl⟩
  have hp' := (List.perm_insertionSort (scoreDateOrder dateMs) _).mem_iff.1 hp
  have hp'' := (List.mem_filter.1 hp').1
  rcases List.mem_map.1 hp'' with ⟨a, ha, rfl⟩
  exact ha

theorem mem_articlesToProcessOf {normalize : String → String}
    {settings : AutomationSettings} {st : CycleState} {x : FetchedArticle}
    (h : x ∈ articlesToProcessOf normalize settings st) : x ∈ st.pendingArticles := by
  unfold articlesToProcessOf at h
  dsimp only at h
  split at h
  · split at h
    · exact (List.mem_filter.1 h).1
    · exact h
  · exact h

theorem mem_articlesToPostOf {normalize : String → String}
    {dateMs : String → Option Int} {getDomain : String → String} {now : Int}
    {learnedBiases : JsMap} {settings : AutomationSettings} {st : CycleState}
    {x : FetchedArticle}
    (h : x ∈ articlesToPostOf normalize dateMs getDomain now learnedBiases settings st) :
    x ∈ articlesToProcessOf normalize settings st :=
  mem_scoreAndFilterArticles ((List.take_sublist _ _).subset h)

/-! ### Posting-loop lemmas -/

theorem postLoop_mem_snd {submit : FetchedArticle → SubmitOutcome} {now : Int} :
    ∀ {batch : List FetchedArticle} {b : FetchedArticle},
      b ∈ (postLoop submit now batch).2 →
      b ∈ batch ∧ ((∃ u, submit b = SubmitOutcome.success u) ∨
        (∃ m, submit b = SubmitOutcome.failure m ∧
          jsIncludes (jsToLower m) "already been submitted" = true)) := by
  intro batch
  induction batch with
  | nil => intro b h; cases h
  | cons article rest ih =>
    intro b h
    rcases hs : submit article with u | msg
    · simp only [postLoop, hs] at h
      rcases List.mem_cons.1 h with rfl | h'
      · exact ⟨List.mem_cons_self _ _, Or.inl ⟨u, hs⟩⟩
      · rcases ih h' with ⟨hb, hc⟩
        exact ⟨List.mem_cons_of_mem _ hb, hc⟩
    · simp only [postLoop, hs] at h
      by_cases hd : jsIncludes (jsToLower msg) "already been submitted" = true
      · rw [if_pos hd] at h
        rcases List.mem_cons.1 h with rfl | h'
        · exact ⟨List.mem_cons_self _ _, Or.inr ⟨msg, hs, hd⟩⟩
        · rcases ih h' with ⟨hb, hc⟩
          exact ⟨List.mem_cons_of_mem _ hb, hc⟩
      · rw [if_neg hd] at h
        rcases ih h with ⟨hb, hc⟩
        exact ⟨List.mem_cons_of_mem _ hb, hc⟩

theorem postLoop_mem_fst {submit : FetchedArticle → SubmitOutcome} {now : Int} :
    ∀ {batch : List FetchedArticle} {e : PostedItem},
      e ∈ (postLoop submit now batch).1 →
      ∃ b, b ∈ batch ∧ e.id = b.link ∧ b ∈ (postLoop submit now batch).2 := by
  intro batch
  induction batch with
  | nil => intro e h; cases h
  | cons article rest ih =>
    intro e h
    rcases hs : submit article with u | msg
    · simp only [postLoop, hs] at h
      rcases List.mem_cons.1 h with rfl | h'
      · exact ⟨article, List.mem_cons_self _ _, rfl, by simp only [postLoop, hs]; exact List.mem_cons_self _ _⟩
      · rcases ih h' with ⟨b, hb, he, hb2⟩
        exact ⟨b, List.mem_cons_of_mem _ hb, he, by simp only [postLoop, hs]; exact List.mem_cons_of_mem _ hb2⟩
    · simp only [postLoop, hs] at h
      by_cases hd : jsIncludes (jsToLower msg) "already been submitted" = true
      · rw [if_pos hd] at h
        rcases List.mem_cons.1 h with rfl | h'
        · exact ⟨article, List.mem_cons_self _ _, rfl,
            by simp only [postLoop, hs, if_pos hd]; exact List.mem_cons_self _ _⟩
        · rcases ih h' with ⟨b, hb, he, hb2⟩
          exact ⟨b, List.mem_cons_of_mem _ hb, he,
            by simp only [postLoop, hs, if_pos hd]; exact List.mem_cons_of_mem _ hb2⟩
      · rw [if_neg hd] at h
        rcases ih h with ⟨b, hb, he, hb2⟩
        exact ⟨b, List.mem_cons_of_mem _ hb, he,
          by simp only [postLoop, hs, if_neg hd]; exact hb2⟩

theorem postLoop_of_dup_failure {submit : FetchedArticle → SubmitOutcome}
    {now : Int} {msg : String} {a : FetchedArticle}
    (hfail : submit a = SubmitOutcome.failure msg)
    (hdup : jsIncludes (jsToLower msg) "already been submitted" = true) :
    ∀ {batch : List FetchedArticle}, a ∈ batch →
      a ∈ (postLoop submit now batch).2 ∧
      (⟨a.link, a.title, a.link, "Duplicate", now⟩ : PostedItem) ∈
        (postLoop submit now batch).1 := by
  intro batch
  induction batch with
  | nil => intro h; cases h
  | cons article rest ih =>
    intro h
    rcases List.mem_cons.1 h with rfl | h'
    · simp only [postLoop, hfail, if_pos hdup]
      exact ⟨List.mem_cons_self _ _, List.mem_cons_self _ _⟩
    · rcases ih h' with ⟨h1, h2⟩
      rcases hs : submit article with u | msg'
      · simp only [postLoop, hs]
        exact ⟨List.mem_cons_of_mem _ h1, List.mem_cons_of_mem _ h2⟩
      · by_cases hd : jsIncludes (jsToLower msg') "already been submitted" = true
        · simp only [postLoop, hs, if_pos hd]
          exact ⟨List.mem_cons_of_mem _ h1, List.mem_cons_of_mem _ h2⟩
        · simp only [postLoop, hs, if_neg hd]
          exact ⟨h1, h2⟩

/-! ### Keyword-fold characterization (for C5) -/

/-- The title-boost accumulator of the keyword loop equals the sum of
`(value + 1) / 2` over the positive-weight entries matched in the title. -/
theorem keywordFold_snd (tl dl : String) :
    ∀ ks : JsMap, (keywordFold tl dl ks).2 =
      ((ks.filter (fun kv => jsIncludes tl kv.1 && decide (0 < kv.2))).map
        (fun kv => (kv.2 + 1) / 2)).sum := by
  intro ks
  induction ks with
  | nil => rfl
  | cons kv rest ih =>
    obtain ⟨k, v⟩ := kv
    by_cases ht : jsIncludes tl k = true
    · by_cases hv : (0 : Int) < v
      · simp [keywordFold, List.filter_cons, ht, hv, ih]
    
      · by_cases hd : jsIncludes dl k = true <;>
          simp [keywordFold, List.filter_cons, ht, hv, hd, ih]
    · by_cases hd : jsIncludes dl k = true <;>
        simp [keywordFold, List.filter_cons, ht, hd, ih]

/-- C5: the scorer adds `ceil(weight * 0.5)` to the title bonus for each
positive-weight keyword appearing (case-insensitively) in the title, and a
negative-weight match never contributes; with the single inclusion keyword
"release date" weighted 10 and a title containing "Release Date", the base is
10 and the title bonus is 5. -/
theorem titleBoost_per_positive_title_match :
    (∀ (dateMs : String → Option Int) (getDomain : String → String) (now : Int)
        (article : FetchedArticle) (scoredKeywords : JsMap)
        (authMap biasMap : Option JsMap),
      (calculateArticleScore dateMs getDomain now article scoredKeywords
          authMap biasMap).titleBoost =
        ((scoredKeywords.filter (fun kv =>
            jsIncludes (jsToLower article.title) kv.1 && decide (0 < kv.2))).map
          (fun kv => (kv.2 + 1) / 2)).sum) ∧
    (calculateArticleScore (fun _ => none) (fun _ => "") 0
        ⟨"l", "Big Reveal Release Date Announced", "l", "s", "d", ""⟩
        [("release date", 10)] none none).base = 10 ∧
    (calculateArticleScore (fun _ => none) (fun _ => "") 0
        ⟨"l", "Big Reveal Release Date Announced", "l", "s", "d", ""⟩
        [("release date", 10)] none none).titleBoost = 5 := by
  refine ⟨?_, by decide, by decide⟩
  intro dateMs getDomain now article scoredKeywords authMap biasMap
  unfold calculateArticleScore
  exact keywordFold_snd _ _ scoredKeywords

/-- C9: the Jaccard similarity of two word sets lies in `[0, 1]`, is `0` when
the union is empty, and is `1` on equal non-empty sets. -/
theorem calculateJaccardSimilarity_bounds (set1 set2 : Finset String) :
    0 ≤ calculateJaccardSimilarity set1 set2 ∧
    calculateJaccardSimilarity set1 set2 ≤ 1 ∧
    (set1 ∪ set2 = ∅ → calculateJaccardSimilarity set1 set2 = 0) ∧
    (set1 = set2 → set1.Nonempty → calculateJaccardSimilarity set1 set2 = 1) := by
  unfold calculateJaccardSimilarity
  by_cases h : (set1 ∪ set2).card = 0
  · refine ⟨by rw [if_pos h], by rw [if_pos h]; norm_num, fun _ => by rw [if_pos h], ?_⟩
    intro heq hne
    subst heq
    rw [Finset.union_self] at h
    exact absurd (Finset.card_ne_zero_of_mem hne.choose_spec) (by simp [h])
  · have hpos : (0 : ℚ) < ((set1 ∪ set2).card : ℚ) := by
      exact_mod_cast Nat.pos_of_ne_zero h
    refine ⟨?_, ?_, ?_, ?_⟩
    · rw [if_neg h]
      positivity
    · rw [if_neg h]
      refine (div_le_one hpos).2 ?_
      exact_mod_cast Finset.card_le_card Finset.inter_subset_union
    · intro hu
      rw [hu] at h
      simp at h
    · intro heq hne
      subst heq
      rw [if_neg h, Finset.union_self, Finset.inter_self]
      refine div_self ?_
      rw [Finset.union_self] at h
      exact_mod_cast h

/-- Closed instance of `calculateJaccardSimilarity_bounds`. -/
theorem calculateJaccardSimilarity_bounds_witness :
    calculateJaccardSimilarity {"alpha"} {"alpha"} = 1 ∧
    calculateJaccardSimilarity (∅ : Finset String) ∅ = 0 :=
  ⟨(calculateJaccardSimilarity_bounds {"alpha"} {"alpha"}).2.2.2 rfl
      ⟨"alpha", by simp⟩,
   (calculateJaccardSimilarity_bounds ∅ ∅).2.2.1 (by simp)⟩

/-- C10: a line with exactly one colon whose score part does not parse as an
integer contributes no entry at all (silently dropped, not defaulted); a
non-empty line with no colon, or with two or more colons, is inserted whole
with the default score. -/
theorem parseKeywords_line_cases :
    (∀ (m : JsMap) (d : Int) (line p0 p1 : String),
        jsSplitOn line ':' = [p0, p1] → jsParseInt (jsTrim p1) = none →
        parseKeywordLine d m line = m) ∧
    (∀ (m : JsMap) (d : Int) (line : String), line ≠ "" →
        (jsSplitOn line ':').length = 1 →
        parseKeywordLine d m line = jsMapSet m line d) ∧
    (∀ (m : JsMap) (d : Int) (line : String), 3 ≤ (jsSplitOn line ':').length →
        parseKeywordLine d m line = jsMapSet m line d) ∧
    parseKeywordsWithScores "deal:" 1 = [] ∧
    parseKeywordsWithScores "deal: high" 1 = [] ∧
    parseKeywordsWithScores "deal:\nsale" 1 = [("sale", 1)] ∧
    parseKeywordsWithScores "a:b:c" 7 = [("a:b:c", 7)] := by
  refine ⟨?_, ?_, ?_, by decide, by decide, by decide, by decide⟩
  · intro m d line p0 p1 hsplit hparse
    simp only [parseKeywordLine, hsplit, hparse]
  · intro m d line hne hlen
    rcases List.length_eq_one.1 hlen with ⟨x, hx⟩
    simp only [parseKeywordLine, hx, hne, ne_eq, not_false_eq_true, if_true]
  · intro m d line hlen
    have hne : line ≠ "" := by
      intro he
      rw [he] at hlen
      simp [jsSplitOn, splitOnChar] at hlen
    rcases hsp : jsSplitOn line ':' with _ | ⟨a, _ | ⟨b, _ | ⟨c, rest⟩⟩⟩ <;>
      rw [hsp] at hlen <;> simp at hlen
    simp only [parseKeywordLine, hsp, hne, ne_eq, not_false_eq_true, if_true]

/-- Closed instance of `parseKeywords_line_cases`. -/
theorem parseKeywords_line_cases_witness :
    parseKeywordLine 1 [] "deal: high" = [] ∧
    parseKeywordLine 7 [] "deal" = [("deal", 7)] ∧
    parseKeywordLine 7 [] "a:b:c" = [("a:b:c", 7)] :=
  ⟨parseKeywords_line_cases.1 [] 1 "deal: high" "deal" " high" (by decide) (by decide),
   (parseKeywords_line_cases.2.1 [] 7 "deal" (by decide) (by decide)).trans (by decide),
   (parseKeywords_line_cases.2.2.1 [] 7 "a:b:c" (by decide)).trans (by decide)⟩

/-- C8: an unparsable publication timestamp makes the recency component `0`
(the function is total, so it never fails), the total is then the sum of the
remaining components, and every other component is computed exactly as it
would be for any other timestamp string. -/
theorem unparsable_date_recency_zero (dateMs : String → Option Int)
    (getDomain : String → String) (now : Int) (article : FetchedArticle)
    (scoredKeywords : JsMap) (authMap biasMap : Option JsMap)
    (h : dateMs article.pubDate = none) :
    (calculateArticleScore dateMs getDomain now article scoredKeywords
        authMap biasMap).recency = 0 ∧
    (calculateArticleScore dateMs getDomain now article scoredKeywords
        authMap biasMap).total =
      (calculateArticleScore dateMs getDomain now article scoredKeywords
        authMap biasMap).base +
      (calculateArticleScore dateMs getDomain now article scoredKeywords
        authMap biasMap).titleBoost +
      (calculateArticleScore dateMs getDomain now article scoredKeywords
        authMap biasMap).sourceAuthority +
      (calculateArticleScore dateMs getDomain now article scoredKeywords
        authMap biasMap).learnedBias ∧
    ∀ d' : String,
      (calculateArticleScore dateMs getDomain now article scoredKeywords
          authMap biasMap).base =
        (calculateArticleScore dateMs getDomain now { article with pubDate := d' }
          scoredKeywords authMap biasMap).base ∧
      (calculateArticleScore dateMs getDomain now article scoredKeywords
          authMap biasMap).titleBoost =
        (calculateArticleScore dateMs getDomain now { article with pubDate := d' }
          scoredKeywords authMap biasMap).titleBoost ∧
      (calculateArticleScore dateMs getDomain now article scoredKeywords
          authMap biasMap).sourceAuthority =
        (calculateArticleScore dateMs getDomain now { article with pubDate := d' }
          scoredKeywords authMap biasMap).sourceAuthority ∧
      (calculateArticleScore dateMs getDomain now article scoredKeywords
          authMap biasMap).learnedBias =
        (calculateArticleScore dateMs getDomain now { article with pubDate := d' }
          scoredKeywords authMap biasMap).learnedBias := by
  have hr : recencyOf dateMs now article.pubDate = 0 := by
    rw [recencyOf, h]
  refine ⟨hr, ?_, fun d' => ⟨rfl, rfl, rfl, rfl⟩⟩
  show (calculateArticleScore dateMs getDomain now article scoredKeywords
      authMap biasMap).total = _
  unfold calculateArticleScore
  dsimp only
  rw [hr]
  ring

/-- Closed instance of `unparsable_date_recency_zero`. -/
theorem unparsable_date_recency_zero_witness :
    (calculateArticleScore (fun _ => none) (fun _ => "") 0
        ⟨"l", "Some Title", "l", "s", "not a date", "D"⟩ [] none none).recency = 0 :=
  (unparsable_date_recency_zero (fun _ => none) (fun _ => "") 0
    ⟨"l", "Some Title", "l", "s", "not a date", "D"⟩ [] none none rfl).1

/-- C4 counterexample: "new" is not in `STOP_WORDS`, so rejecting an article
titled "New Controller Leaked" from an empty bias map produces
`{new: -1, controller: -1, leaked: -1}`, not `{controller: -1, leaked: -1}`. -/
theorem reject_new_controller_leaked_counterexample :
    STOP_WORDS.contains "new" = false ∧
    (handleRemoveArticleFromQueue id true
        [⟨"L", "New Controller Leaked", "L", "s", "d", "x"⟩] [] [] "L").2.2 =
      [("new", -1), ("controller", -1), ("leaked", -1)] ∧
    jsMapGet (handleRemoveArticleFromQueue id true
        [⟨"L", "New Controller Leaked", "L", "s", "d", "x"⟩] [] [] "L").2.2 "new" =
      some (-1) :=
  ⟨by decide, by decide, by decide⟩

/-- C4 (amended): each significant word of a rejected title has its bias
entry decremented by 1 (absent entries starting at 0); since "new" is not a
stop word, rejecting "New Controller Leaked" from an empty bias map yields
`{new: -1, controller: -1, leaked: -1}`. -/
theorem bias_decrement_per_word :
    (∀ (learnedBiases : JsMap) (title w : String),
        w ∈ extractSignificantKeywords title →
        jsMapGet (learnBiasesFromRejection learnedBiases title) w =
          some ((jsMapGet learnedBiases w).getD 0 - 1)) ∧
    learnBiasesFromRejection [] "New Controller Leaked" =
      [("new", -1), ("controller", -1), ("leaked", -1)] := by
  refine ⟨?_, by decide⟩
  intro learnedBiases title w hw
  unfold learnBiasesFromRejection
  exact jsMapGet_biasFold_of_mem w _ _ (nodup_extractSignificantKeywords title) hw

/-- Closed instance of `bias_decrement_per_word`. -/
theorem bias_decrement_per_word_witness :
    jsMapGet (learnBiasesFromRejection [] "New Controller Leaked") "controller" =
      some (-1) := by
  have h := bias_decrement_per_word.1 [] "New Controller Leaked" "controller" (by decide)
  simpa [jsMapGet] using h

/-! ### Key uniqueness of parsed keyword maps (for C6) -/

theorem keys_nodup_parseKeywordLine (d : Int) (m : JsMap) (line : String)
    (h : (m.map Prod.fst).Nodup) :
    ((parseKeywordLine d m line).map Prod.fst).Nodup := by
  unfold parseKeywordLine
  split
  · split
    · dsimp only
      split
      · exact keys_nodup_jsMapSet _ _ _ h
      · exact h
    · exact h
  · split
    · exact keys_nodup_jsMapSet _ _ _ h
    · exact h

theorem keys_nodup_parseKeywordsWithScores (s : String) (d : Int) :
    ((parseKeywordsWithScores s d).map Prod.fst).Nodup := by
  unfold parseKeywordsWithScores
  have aux : ∀ (lines : List String) (m : JsMap), (m.map Prod.fst).Nodup →
      ((lines.foldl (parseKeywordLine d) m).map Prod.fst).Nodup := by
    intro lines
    induction lines with
    | nil => intro m h; exact h
    | cons l rest ih =>
      intro m h
      rw [List.foldl_cons]
      exact ih _ (keys_nodup_parseKeywordLine d m l h)
  exact aux _ [] (by simp)

/-- C6: in the combined keyword map, every exclusion keyword ends up bound to
the negated absolute value of its exclusion score (so a keyword in both lists
gets the exclusion weight, the exclusion fold running after the inclusion
fold); scoring an article whose description (but not title) contains the
exclusion keyword "deal" weighted 10 yields base −10 and title bonus 0. -/
theorem exclusion_overrides_inclusion :
    (∀ (includeKeywords excludeKeywords k : String) (v : Int),
        jsMapGet (parseKeywordsWithScores excludeKeywords 1) k = some v →
        jsMapGet (combinedScoredKeywordsOf includeKeywords excludeKeywords) k =
          some (-|v|)) ∧
    (calculateArticleScore (fun _ => none) (fun _ => "") 0
        ⟨"l", "Console update arrives", "l", "s", "d", "a new deal for you"⟩
        (combinedScoredKeywordsOf "" "deal: 10") none none).base = -10 ∧
    (calculateArticleScore (fun _ => none) (fun _ => "") 0
        ⟨"l", "Console update arrives", "l", "s", "d", "a new deal for you"⟩
        (combinedScoredKeywordsOf "" "deal: 10") none none).titleBoost = 0 := by
  refine ⟨?_, by decide, by decide⟩
  intro inc exc k v h
  unfold jsMapGet at h
  rcases hf : List.find? (fun p => p.1 == k) (parseKeywordsWithScores exc 1) with _ | p
  · rw [hf] at h
    cases h
  · rw [hf] at h
    have hp1 : p.1 = k := by simpa using List.find?_some hf
    have hp2 : p.2 = v := by simpa using h
    have hmem : (k, v) ∈ parseKeywordsWithScores exc 1 := by
      rw [← hp1, ← hp2]
      exact List.mem_of_find?_eq_some hf
    unfold combinedScoredKeywordsOf
    exact jsMapGet_foldl_set_of_mem (fun p => -|p.2|) k v _ _
      (keys_nodup_parseKeywordsWithScores exc 1) hmem

/-- Closed instance of `exclusion_overrides_inclusion`. -/
theorem exclusion_overrides_inclusion_witness :
    jsMapGet (combinedScoredKeywordsOf "deal: 3" "deal: 10") "deal" = some (-10) :=
  (exclusion_overrides_inclusion.1 "deal: 3" "deal: 10" "deal" 10 (by decide)).trans
    (by decide)

/-! ### Fetch-cycle lemmas and claims C1, C2 -/

theorem mem_mergeIntoQueue {normalize : String → String}
    {dateMs : String → Option Int} {pending u : List FetchedArticle}
    {a : FetchedArticle} (h : a ∈ mergeIntoQueue normalize dateMs pending u) :
    a ∈ pending ∨ a ∈ u := by
  unfold mergeIntoQueue at h
  dsimp only at h
  have h1 := (List.take_sublist _ _).subset h
  have h2 := (List.mem_insertionSort (pubDateOrder dateMs)).1 h1
  exact List.mem_append.1 ((dedupBy_sublist _ _).subset h2)

/-- C1: for every current queue, fetched article list, posting history and
removed-link set, the queue produced by the fetch-cycle merge has no two
entries with the same normalized link, has at most 50 entries, and is sorted
by publication timestamp descending. -/
theorem mergeIntoQueue_invariants (normalize : String → String)
    (dateMs : String → Option Int) (pendingArticles : List FetchedArticle)
    (postingHistory : List PostedItem) (removedArticleUrls : List String)
    (newArticles : List FetchedArticle) :
    ((mergeIntoQueue normalize dateMs pendingArticles
        (uniqueNewOf normalize pendingArticles postingHistory removedArticleUrls
          newArticles)).map (fun a => normalize a.link)).Nodup ∧
    (mergeIntoQueue normalize dateMs pendingArticles
        (uniqueNewOf normalize pendingArticles postingHistory removedArticleUrls
          newArticles)).length ≤ MAX_PENDING_ARTICLES ∧
    (mergeIntoQueue normalize dateMs pendingArticles
        (uniqueNewOf normalize pendingArticles postingHistory removedArticleUrls
          newArticles)).Sorted (pubDateOrder dateMs) := by
  unfold mergeIntoQueue
  dsimp only
  set u := uniqueNewOf normalize pendingArticles postingHistory removedArticleUrls
    newArticles with hu
  set dd := dedupBy (fun a => normalize a.link) (pendingArticles ++ u) with hdd
  refine ⟨?_, ?_, ?_⟩
  · have hnd : (dd.map (fun a => normalize a.link)).Nodup :=
      nodup_map_key_dedupBy _ _
    have hperm : ((dd.insertionSort (pubDateOrder dateMs)).map
        (fun a => normalize a.link)).Perm (dd.map (fun a => normalize a.link)) :=
      (List.perm_insertionSort (pubDateOrder dateMs) dd).map _
    have hnd' := hperm.nodup_iff.2 hnd
    exact hnd'.sublist ((List.take_sublist _ _).map _)
  · rw [List.length_take]
    exact min_le_left _ _
  · exact List.Pairwise.sublist (List.take_sublist _ _)
      (List.sorted_insertionSort (pubDateOrder dateMs) dd)

/-- C2 counterexample: a fetched article sharing its normalized link with a
queue entry is dropped before the merge, so the queue keeps the previously
queued copy (metadata included), not the newly fetched copy. -/
theorem fetch_merge_keeps_old_metadata_counterexample :
    runFetchCycle id (fun _ => none)
        [⟨"http://a.com/x", "Title A", "http://a.com/x", "SrcOld", "d1",
          "old description"⟩] [] []
        [⟨"http://a.com/x", "Title A", "http://a.com/x", "SrcNew", "d2",
          "new description"⟩] =
      [⟨"http://a.com/x", "Title A", "http://a.com/x", "SrcOld", "d1",
        "old description"⟩] ∧
    ("old description" : String) ≠ "new description" :=
  ⟨by decide, by decide⟩

/-- C2 (amended): fetched articles whose normalized link matches an existing
queue entry (or history entry, or removed link) are filtered out before the
merge concatenation (which puts the existing queue entries first), so when a
just-fetched article shares a normalized link with a queue entry, the fetched
copy is dropped and every entry of the updated queue sharing that normalized
link is the previously queued copy, whose metadata (description, source
name) is retained. -/
theorem runFetchCycle_retains_queued_copy (normalize : String → String)
    (dateMs : String → Option Int) (pendingArticles : List FetchedArticle)
    (postingHistory : List PostedItem) (removedArticleUrls : List String)
    (newArticles : List FetchedArticle) (a : FetchedArticle)
    (ha : a ∈ runFetchCycle normalize dateMs pendingArticles postingHistory
        removedArticleUrls newArticles)
    (hshared : ∃ p ∈ pendingArticles, normalize p.link = normalize a.link) :
    a ∈ pendingArticles := by
  unfold runFetchCycle at ha
  split at ha
  · exact ha
  · dsimp only at ha
    split at ha
    · exact ha
    · rcases mem_mergeIntoQueue ha with h | h
      · exact h
      · exfalso
        unfold uniqueNewOf at h
        have hf := List.mem_filter.1 h
        have hcontains : ¬ ((postingHistory.map (fun item => normalize item.url) ++
            pendingArticles.map (fun item => normalize item.link) ++
            removedArticleUrls).contains (normalize a.link) = true) := by
          simpa using hf.2
        rcases hshared with ⟨p, hp, hpl⟩
        have hmem : normalize a.link ∈ postingHistory.map
            (fun item => normalize item.url) ++
            pendingArticles.map (fun item => normalize item.link) ++
            removedArticleUrls := by
          refine List.mem_append_left _ (List.mem_append_right _ ?_)
          exact List.mem_map.2 ⟨p, hp, hpl⟩
        exact hcontains (by simpa [List.contains] using List.elem_iff.2 hmem)

/-- Closed instance of `runFetchCycle_retains_queued_copy`. -/
theorem runFetchCycle_retains_queued_copy_witness :
    (⟨"http://a.com/x", "Title A", "http://a.com/x", "SrcOld", "d1",
        "old description"⟩ : FetchedArticle) ∈
      [(⟨"http://a.com/x", "Title A", "http://a.com/x", "SrcOld", "d1",
        "old description"⟩ : FetchedArticle)] :=
  runFetchCycle_retains_queued_copy id (fun _ => none)
    [⟨"http://a.com/x", "Title A", "http://a.com/x", "SrcOld", "d1",
      "old description"⟩] [] []
    [⟨"http://a.com/x", "Title A", "http://a.com/x", "SrcNew", "d2",
      "new description"⟩]
    ⟨"http://a.com/x", "Title A", "http://a.com/x", "SrcOld", "d1",
      "old description"⟩
    (by decide)
    ⟨⟨"http://a.com/x", "Title A", "http://a.com/x", "SrcOld", "d1",
      "old description"⟩, by decide, rfl⟩

/-! ### Posting-cycle claims C3, C7 -/

/-- Concrete queued article for exercising the duplicate check: its title
matches a posting-history title exactly. -/
def c3Article : FetchedArticle := ⟨"L3", "Alpha Beta", "L3", "s", "d", "x"⟩

/-- Concrete posting-history entry whose title equals `c3Article`'s. -/
def c3History : PostedItem := ⟨"h", "Alpha Beta", "h", "p", 0⟩

/-- Settings with the proactive duplicate check enabled and empty keyword
configuration. -/
def c3Settings : AutomationSettings := ⟨"sub", 15, 1, "", "", "", "", "", 0, true, true⟩

/-- Queue-and-history state holding just `c3Article` and `c3History`. -/
def c3St : CycleState := ⟨[c3Article], [c3History]⟩

theorem c3_jac : (1 : ℚ)/2 ≤ calculateJaccardSimilarity
    (["alpha", "beta"] : List String).toFinset
    (["alpha", "beta"] : List String).toFinset := by
  unfold calculateJaccardSimilarity
  rw [Finset.union_self, Finset.inter_self]
  rw [show ((["alpha", "beta"] : List String).toFinset).card = 2 from by decide]
  norm_num

theorem c3_words : normalizeAndGetWords "Alpha Beta" = ["alpha", "beta"] := by decide

theorem c3_dup : findLocalSemanticDuplicates [c3Article] ["Alpha Beta"] (1/2) =
    ["L3"] := by
  unfold findLocalSemanticDuplicates
  rw [show ([c3Article].isEmpty || (["Alpha Beta"] : List String).isEmpty) = false
    from rfl]
  simp only [Bool.false_eq_true, if_false, List.map_cons, List.map_nil,
    List.filterMap_cons, List.filterMap_nil, List.any_cons, List.any_nil,
    Bool.or_false]
  rw [show c3Article.title = "Alpha Beta" from rfl, c3_words,
    decide_eq_true c3_jac]
  rfl

theorem c3_atp : articlesToProcessOf id c3Settings c3St = [] := by
  unfold articlesToProcessOf
  rw [show c3Settings.useProactiveDuplicateCheck = true from rfl]
  dsimp only
  rw [show ((c3St.postingHistory.take 50).map (fun item => item.title)) =
    ["Alpha Beta"] from rfl]
  rw [show c3St.pendingArticles = [c3Article] from rfl, c3_dup]
  decide

theorem c3_cycle : runPostingCycle id (fun _ => none) (fun _ => "") 0 true
    c3Settings [] (fun _ => SubmitOutcome.failure "network error") c3St =
    ⟨[], [c3History]⟩ := by
  unfold runPostingCycle articlesToPostOf
  rw [c3_atp]
  dsimp only
  decide

/-- C3 counterexample: in a post cycle whose semantic duplicate check flags a
queued article and whose post batch comes out empty, the flagged article is
removed from the persistent queue (the filtered working set is saved), not
retained in it. -/
theorem posting_cycle_drops_flagged_counterexample :
    findLocalSemanticDuplicates c3St.pendingArticles
      ((c3St.postingHistory.take 50).map (fun item => item.title)) (1/2) =
      [c3Article.id] ∧
    (runPostingCycle id (fun _ => none) (fun _ => "") 0 true c3Settings []
        (fun _ => SubmitOutcome.failure "network error") c3St).pendingArticles =
      [] := by
  constructor
  · rw [show c3St.pendingArticles = [c3Article] from rfl,
      show ((c3St.postingHistory.take 50).map (fun item => item.title)) =
        ["Alpha Beta"] from rfl, c3_dup]
    rfl
  · rw [c3_cycle]

/-- C3 (amended): articles flagged by the semantic duplicate check are removed
from the cycle's in-flight working set, and whenever the cycle saves the queue
(empty post batch, or a batch with at least one successful or duplicate-class
submission) they are removed from the persistent queue as well; the queue
keeps them only when the cycle saves nothing (every attempted submission
failed with a non-duplicate error, or the cycle returned early). -/
theorem flagged_articles_dropped_when_saved (normalize : String → String)
    (dateMs : String → Option Int) (getDomain : String → String) (now : Int)
    (authOk : Bool) (settings : AutomationSettings) (learnedBiases : JsMap)
    (submit : FetchedArticle → SubmitOutcome) (st : CycleState)
    (a : FetchedArticle)
    (hdup : settings.useProactiveDuplicateCheck = true)
    (hflag : normalize a.link ∈ (findLocalSemanticDuplicates st.pendingArticles
        ((st.postingHistory.take 50).map (fun item => item.title)) (1/2)).map
        normalize) :
    (runPostingCycle normalize dateMs getDomain now authOk settings
        learnedBiases submit st).pendingArticles = st.pendingArticles ∨
    a ∉ (runPostingCycle normalize dateMs getDomain now authOk settings
        learnedBiases submit st).pendingArticles := by
  have hATP : a ∉ articlesToProcessOf normalize settings st := by
    unfold articlesToProcessOf
    rw [hdup, if_pos rfl]
    dsimp only
    rcases List.mem_map.1 hflag with ⟨x, hx, _⟩
    rw [if_pos (List.length_pos.2 (List.ne_nil_of_mem hx))]
    intro hmem
    have hf := List.mem_filter.1 hmem
    have hcon : ¬ (((findLocalSemanticDuplicates st.pendingArticles
        ((st.postingHistory.take 50).map (fun item => item.title)) (1/2)).map
        normalize).contains (normalize a.link) = true) := by
      simpa using hf.2
    exact hcon (by simpa [List.contains] using List.elem_iff.2 hflag)
  unfold runPostingCycle
  dsimp only
  split
  · exact Or.inl rfl
  split
  · exact Or.inl rfl
  split
  · exact Or.inr hATP
  split
  · exact Or.inl rfl
  · refine Or.inr (fun hmem => ?_)
    exact hATP (List.mem_filter.1 hmem).1

/-- Closed instance of `flagged_articles_dropped_when_saved`. -/
theorem flagged_articles_dropped_when_saved_witness :
    (runPostingCycle id (fun _ => none) (fun _ => "") 0 true c3Settings []
        (fun _ => SubmitOutcome.failure "network error") c3St).pendingArticles =
      c3St.pendingArticles ∨
    c3Article ∉ (runPostingCycle id (fun _ => none) (fun _ => "") 0 true
        c3Settings [] (fun _ => SubmitOutcome.failure "network error")
        c3St).pendingArticles :=
  flagged_articles_dropped_when_saved id (fun _ => none) (fun _ => "") 0 true
    c3Settings [] (fun _ => SubmitOutcome.failure "network error") c3St
    c3Article rfl
    (by
      rw [show c3St.pendingArticles = [c3Article] from rfl,
        show ((c3St.postingHistory.take 50).map (fun item => item.title)) =
          ["Alpha Beta"] from rfl, c3_dup]
      decide)

/-- C7: in a post-cycle batch, a submission failure whose message contains
"already been submitted" (case-insensitively) is treated as a terminal
duplicate outcome: a history entry with the sentinel "Duplicate" publish
location is recorded and the article is removed from the queue at the end of
the batch; any other submission failure leaves the article in the queue and
appends no history entry for it. -/
theorem duplicate_class_failure_is_terminal (normalize : String → String)
    (dateMs : String → Option Int) (getDomain : String → String) (now : Int)
    (settings : AutomationSettings) (learnedBiases : JsMap)
    (submit : FetchedArticle → SubmitOutcome) (st : CycleState)
    (a : FetchedArticle) (msg : String)
    (hmem : a ∈ articlesToPostOf normalize dateMs getDomain now learnedBiases
        settings st)
    (huniq : ∀ b ∈ articlesToPostOf normalize dateMs getDomain now
        learnedBiases settings st, normalize b.link = normalize a.link → b = a)
    (hfail : submit a = SubmitOutcome.failure msg) :
    (jsIncludes (jsToLower msg) "already been submitted" = true →
      (⟨a.link, a.title, a.link, "Duplicate", now⟩ : PostedItem) ∈
        (runPostingCycle normalize dateMs getDomain now true settings
          learnedBiases submit st).postingHistory ∧
      a ∉ (runPostingCycle normalize dateMs getDomain now true settings
          learnedBiases submit st).pendingArticles) ∧
    (jsIncludes (jsToLower msg) "already been submitted" = false →
      a ∈ (runPostingCycle normalize dateMs getDomain now true settings
          learnedBiases submit st).pendingArticles ∧
      (∀ e ∈ (runPostingCycle normalize dateMs getDomain now true settings
          learnedBiases submit st).postingHistory,
        e.id = a.link → e ∈ st.postingHistory)) := by
  have hproc : a ∈ articlesToProcessOf normalize settings st :=
    mem_articlesToPostOf hmem
  have hpend : a ∈ st.pendingArticles := mem_articlesToProcessOf hproc
  have hpne : st.pendingArticles.isEmpty = false := by
    cases hl : st.pendingArticles with
    | nil => rw [hl] at hpend; cases hpend
    | cons x xs => rfl
  have hatpne : (articlesToPostOf normalize dateMs getDomain now learnedBiases
      settings st).isEmpty = false := by
    cases hl : articlesToPostOf normalize dateMs getDomain now learnedBiases
        settings st with
    | nil => rw [hl] at hmem; cases hmem
    | cons x xs => rfl
  have hred : runPostingCycle normalize dateMs getDomain now true settings
      learnedBiases submit st =
      (if (postLoop submit now (articlesToPostOf normalize dateMs getDomain now
          learnedBiases settings st)).2.isEmpty then st
       else
        ⟨(articlesToProcessOf normalize settings st).filter
            (fun x => !(((postLoop submit now (articlesToPostOf normalize dateMs
              getDomain now learnedBiases settings st)).2.map
                (fun b => normalize b.link)).contains (normalize x.link))),
          (postLoop submit now (articlesToPostOf normalize dateMs getDomain now
            learnedBiases settings st)).1 ++ st.postingHistory⟩) := by
    unfold runPostingCycle
    simp only [Bool.not_true, Bool.false_eq_true, if_false, hpne, hatpne]
  constructor
  · intro hd
    obtain ⟨hsnd, hfst⟩ := postLoop_of_dup_failure hfail hd hmem
    have hne2 : (postLoop submit now (articlesToPostOf normalize dateMs
        getDomain now learnedBiases settings st)).2.isEmpty = false := by
      cases hl : (postLoop submit now (articlesToPostOf normalize dateMs
          getDomain now learnedBiases settings st)).2 with
      | nil => rw [hl] at hsnd; cases hsnd
      | cons x xs => rfl
    rw [hred, if_neg (by rw [hne2]; exact Bool.false_ne_true)]
    constructor
    · exact List.mem_append_left _ hfst
    · intro hmem2
      have hf2 := List.mem_filter.1 hmem2
      have hcon : ¬ ((((postLoop submit now (articlesToPostOf normalize dateMs
          getDomain now learnedBiases settings st)).2.map
            (fun b => normalize b.link)).contains (normalize a.link)) = true) := by
        simpa using hf2.2
      have hmm : normalize a.link ∈ (postLoop submit now
          (articlesToPostOf normalize dateMs getDomain now learnedBiases
            settings st)).2.map (fun b => normalize b.link) :=
        List.mem_map.2 ⟨a, hsnd, rfl⟩
      exact hcon (by simpa [List.contains] using List.elem_iff.2 hmm)
  · intro hd
    have hnot2 : a ∉ (postLoop submit now (articlesToPostOf normalize dateMs
        getDomain now learnedBiases settings st)).2 := by
      intro h2
      rcases (postLoop_mem_snd h2).2 with ⟨u, hu⟩ | ⟨m, hm, hmd⟩
      · rw [hfail] at hu
        cases hu
      · rw [hfail] at hm
        injection hm with hm'
        subst hm'
        rw [hmd] at hd
        cases hd
    by_cases hre : (postLoop submit now (articlesToPostOf normalize dateMs
        getDomain now learnedBiases settings st)).2.isEmpty = true
    · rw [hred, if_pos hre]
      exact ⟨hpend, fun e he _ => he⟩
    · rw [hred, if_neg hre]
      have hnotlink : normalize a.link ∉ (postLoop submit now
          (articlesToPostOf normalize dateMs getDomain now learnedBiases
            settings st)).2.map (fun b => normalize b.link) := by
        intro hmm
        rcases List.mem_map.1 hmm with ⟨b, hb2, hbl⟩
        have hbatch := (postLoop_mem_snd hb2).1
        have hba := huniq b hbatch hbl
        subst hba
        exact hnot2 hb2
      constructor
      · refine List.mem_filter.2 ⟨hproc, ?_⟩
        cases hb : (((postLoop submit now (articlesToPostOf normalize dateMs
            getDomain now learnedBiases settings st)).2.map
              (fun b => normalize b.link)).contains (normalize a.link)) with
        | false => rfl
        | true =>
          exact absurd (List.elem_iff.1 (by simpa [List.contains] using hb))
            hnotlink
      · intro e he heid
        rcases List.mem_append.1 he with h1 | h2
        · exfalso
          rcases postLoop_mem_fst h1 with ⟨b, hb, hbid, hb2⟩
          have hba : b.link = a.link := hbid.symm.trans heid
          have := huniq b hb (by rw [hba])
          subst this
          exact hnot2 hb2
        · exact h2

/-- Concrete queued article for the duplicate-class submission scenario. -/
def c7Article : FetchedArticle := ⟨"L7", "Gamma Delta", "L7", "s", "d", "x"⟩

/-- Settings with both toggles off and empty keyword configuration. -/
def c7Settings : AutomationSettings :=
  ⟨"sub", 15, 1, "", "", "", "", "", 0, false, false⟩

/-- Queue-and-history state holding just `c7Article`. -/
def c7St : CycleState := ⟨[c7Article], []⟩

/-- Publishing collaborator that always reports the duplicate-link error. -/
def c7Submit : FetchedArticle → SubmitOutcome :=
  fun _ => SubmitOutcome.failure
    "This link has already been submitted to this subreddit."

/-- Closed instance of `duplicate_class_failure_is_terminal`. -/
theorem duplicate_class_failure_is_terminal_witness :
    (⟨c7Article.link, c7Article.title, c7Article.link, "Duplicate", 0⟩ :
        PostedItem) ∈
      (runPostingCycle id (fun _ => none) (fun _ => "") 0 true c7Settings []
        c7Submit c7St).postingHistory ∧
    c7Article ∉ (runPostingCycle id (fun _ => none) (fun _ => "") 0 true
        c7Settings [] c7Submit c7St).pendingArticles :=
  (duplicate_class_failure_is_terminal id (fun _ => none) (fun _ => "") 0
    c7Settings [] c7Submit c7St c7Article
    "This link has already been submitted to this subreddit."
    (by decide) (by decide) rfl).1 (by decide)
